import Mathlib

/-!
Verification of the DZI tiler (file src/lib.rs of the repository) against its
natural-language specification.  The Rust code is shallowly embedded below:
machine integers (u32) become Nat together with explicit wrapping operations
mod 2^32 at the points where Rust release builds wrap, and fallible functions
return Except.  Floating point appears in the Rust source only in computations
whose results are exactly characterised by integer or rational arithmetic on
the u32 input range; each such place is documented at the embedding definition.
-/

namespace DZI

/-- Modulus of the u32 machine integers used throughout the Rust source. -/
def M : Nat := 4294967296

/-- Wrapping u32 addition, the behaviour of `a + b` in Rust release builds. -/
def wadd (a b : Nat) : Nat := (a + b) % M

/-- Wrapping u32 subtraction, the behaviour of `a - b` in Rust release builds
(a debug build panics at exactly the subtractions whose wrapping value differs
from the mathematical one). -/
def wsub (a b : Nat) : Nat := (a % M + (M - b % M)) % M

/-- Wrapping u32 multiplication, the behaviour of `a * b` in Rust release builds. -/
def wmul (a b : Nat) : Nat := (a % M * (b % M)) % M

/-- Embeds the enum TilingError of src/lib.rs (payloads of the variants are
dropped: they are messages or foreign error values and no claim inspects
them).  The specification names the kinds abstractly; its InvalidLevel kind is
the variant UnexpectedError here (produced only by check_level), its
DimensionMismatch kind is IncorrectRGBInputDimensions, and its CodecError kind
is ImageError. -/
inductive TilingError where
  | UnsupportedSourceImage
  | UnexpectedError
  | ImageError
  | IOError
  | IncorrectRGBInputDimensions
deriving DecidableEq, Repr

instance {ε α : Type} [DecidableEq ε] [DecidableEq α] : DecidableEq (Except ε α) := by
  intro x y
  cases x <;> cases y
  case error.error a b =>
    exact if h : a = b then isTrue (by rw [h]) else isFalse (by simp [h])
  case ok.ok a b =>
    exact if h : a = b then isTrue (by rw [h]) else isFalse (by simp [h])
  case error.ok a b => exact isFalse (by simp)
  case ok.error a b => exact isFalse (by simp)

/-- Embeds the struct TileCreator of src/lib.rs.  The field image of the Rust
struct is a decoded raster; only its pixel dimensions are ever read by the
functions under verification, so the embedding keeps width and height. -/
structure TileCreator where
  dest_path : String
  dzi_file_path : String
  width : Nat
  height : Nat
  tile_size : Nat
  tile_overlap : Nat
  levels : Nat
deriving DecidableEq, Repr

/-- Fuel-driven ceiling base-two logarithm.  The fuel only makes the recursion
structural; clog2F fuel n computes the least k with n <= 2^k whenever
n <= fuel (lemma clog2F_eq_clog below). -/
def clog2F : Nat → Nat → Nat
  | 0, _ => 0
  | fuel + 1, n => if n ≤ 1 then 0 else clog2F fuel ((n + 1) / 2) + 1

/-- Least k with n <= 2^k, computed structurally (equals Nat.clog 2 n, lemma
clog2_eq_clog below). -/
def clog2 (n : Nat) : Nat := clog2F n n

/-- Embeds TileCreator::calculate_levels of src/lib.rs:
`(src_image_height.max(src_image_width) as f64).log2().ceil() as u32 + 1`.
For every u32 argument n the f64 conversion is exact (n < 2^32 < 2^53) and
log2 followed by ceil yields exactly the least k with n <= 2^k, which is
clog2 n (for n = 0, log2 gives negative infinity and the saturating cast to
u32 gives 0, matching clog2 0 = 0; for n = 1, log2 gives 0). -/
def calculate_levels (src_image_width src_image_height : Nat) : Nat :=
  clog2 (Nat.max src_image_height src_image_width) + 1

/-- Both Rust constructors build the struct with levels set by
calculate_levels; this is the common constructor core. -/
def tcOf (dest dzi : String) (w h ts ov : Nat) : TileCreator :=
  { dest_path := dest
    dzi_file_path := dzi
    width := w
    height := h
    tile_size := ts
    tile_overlap := ov
    levels := calculate_levels w h }

/-- Embeds TileCreator::new_from_rgb of src/lib.rs.  The call
`RgbImage::from_raw(width, height, rgb_data.to_vec())` is dependency code
(crate image, ImageBuffer::from_raw): it returns Some exactly when the
container is at least as long as the image data, that is when
`width*height*3 <= rgb_data.len()` (on a 64-bit host the length product
cannot overflow usize for u32 inputs); on None the Rust code returns
IncorrectRGBInputDimensions.  The buffer content is never read by the
functions under verification, so the embedding takes only its length. -/
def new_from_rgb (rgb_data_len w h ts ov : Nat) (dest dzi : String) :
    Except TilingError TileCreator :=
  if w * h * 3 ≤ rgb_data_len then
    Except.ok (tcOf dest dzi w h ts ov)
  else
    Except.error TilingError.IncorrectRGBInputDimensions

/-- Embeds TileCreator::check_level of src/lib.rs. -/
def check_level (tc : TileCreator) (l : Nat) : Except TilingError Unit :=
  if l ≥ tc.levels then Except.error TilingError.UnexpectedError
  else Except.ok ()

/-- Embeds TileCreator::get_scale of src/lib.rs:
`0.5f64.powi((self.levels - 1 - level) as i32)` after check_level.  The f64
value 0.5^k is the exact rational 2^-k for every exponent that can occur
(k < levels <= 33 for u32 dimensions), so the scale is embedded as a
rational. -/
def get_scale (tc : TileCreator) (level : Nat) : Except TilingError ℚ :=
  match check_level tc level with
  | Except.error e => Except.error e
  | Except.ok _ => Except.ok ((1 / 2 : ℚ) ^ (tc.levels - 1 - level))

/-- Ceiling division on Nat, written as the integer computation
`(a + b - 1) / b`. -/
def ceilDiv (a b : Nat) : Nat := (a + b - 1) / b

/-- Embeds TileCreator::get_dimensions of src/lib.rs:
`(w as f64 * s).ceil() as u32` (and the same for h) after check_level, where
s = 0.5^k with k = levels - 1 - level.  The f64 product of an exact integer
below 2^32 with an exact power of two is exact, ceil is exact, and the cast
does not saturate, so the computed value is exactly the ceiling of w / 2^k,
which on Nat is ceilDiv w (2^k).  The rational-ceiling characterisation is
proved below (ceilDiv_eq_nat_ceil and the claim C4 theorem). -/
def get_dimensions (tc : TileCreator) (level : Nat) :
    Except TilingError (Nat × Nat) :=
  match check_level tc level with
  | Except.error e => Except.error e
  | Except.ok _ =>
    Except.ok (ceilDiv tc.width (2 ^ (tc.levels - 1 - level)),
      ceilDiv tc.height (2 ^ (tc.levels - 1 - level)))

/-- Embeds TileCreator::get_level_image of src/lib.rs.  After check_level the
Rust code resizes the source raster, which cannot fail; no claim under
verification inspects the pixels, so the embedding returns Unit. -/
def get_level_image (tc : TileCreator) (level : Nat) :
    Except TilingError Unit :=
  match check_level tc level with
  | Except.error e => Except.error e
  | Except.ok _ =>
    match get_dimensions tc level with
    | Except.error e => Except.error e
    | Except.ok _ => Except.ok ()

/-- Models the Rust expression `(w as f64 / ts as f64).ceil() as u32` of
get_tile_count.  For ts >= 1 the correctly rounded f64 quotient of two u32
values w/ts lies strictly between the integers below and above the exact
quotient whenever ts does not divide w (the distance of the exact quotient
from the integer below it is at least 1/ts, which exceeds half an ulp of the
quotient since quotient * ts < 2^32 < 2^53), so ceil of the rounded quotient
is exactly ceilDiv w ts.  For ts = 0 Rust produces infinity (or NaN when also
w = 0) and the saturating cast yields 4294967295 (or 0). -/
def fceil_div_u32 (w ts : Nat) : Nat :=
  if ts = 0 then (if w = 0 then 0 else M - 1) else ceilDiv w ts

/-- Embeds TileCreator::get_tile_count of src/lib.rs. -/
def get_tile_count (tc : TileCreator) (l : Nat) :
    Except TilingError (Nat × Nat) :=
  match get_dimensions tc l with
  | Except.error e => Except.error e
  | Except.ok (w, h) =>
    Except.ok (fceil_div_u32 w tc.tile_size, fceil_div_u32 h tc.tile_size)

/-- Embeds TileCreator::get_tile_bounds of src/lib.rs, with every u32
operation embedded as the corresponding wrapping operation mod 2^32 (release
build behaviour; a debug build panics exactly where the wrapping value
differs from the mathematical one). -/
def get_tile_bounds (tc : TileCreator) (level col row : Nat) :
    Except TilingError (Nat × Nat × Nat × Nat) :=
  let offset_x := if col = 0 then 0 else tc.tile_overlap
  let offset_y := if row = 0 then 0 else tc.tile_overlap
  let x := wsub (wmul col tc.tile_size) offset_x
  let y := wsub (wmul row tc.tile_size) offset_y
  match get_dimensions tc level with
  | Except.error e => Except.error e
  | Except.ok (lw, lh) =>
    let w := wadd tc.tile_size (wmul (if col = 0 then 1 else 2) tc.tile_overlap)
    let h := wadd tc.tile_size (wmul (if row = 0 then 1 else 2) tc.tile_overlap)
    let w := min w (wsub lw x)
    let h := min h (wsub lh y)
    Except.ok (x, y, wadd x w, wadd y h)

/-- Fuel-driven bit length, structural companion of the standard bit length
(the number of binary digits, floor(log2 n) + 1 for n >= 1). -/
def bit_lengthF : Nat → Nat → Nat
  | 0, _ => 0
  | fuel + 1, n => if n = 0 then 0 else bit_lengthF fuel (n / 2) + 1

/-- Bit length of a natural number: 0 for 0, and the unique k with
2^(k-1) <= n < 2^k for n >= 1 (certified by lemma bit_length_spec). -/
def bit_length (n : Nat) : Nat := bit_lengthF n n

/-! Trace model of the effectful pipeline create_tiles / create_level of
src/lib.rs.  The filesystem interactions are recorded as an event trace;
the only fallible per-tile effect, tile_image.save, is modelled by an
oracle assigning each (level, col, row) either success or a failure error.
Directory creation, the resize, and the final descriptor write are modelled
as succeeding; this suffices to settle the claims about processing order,
abort-on-first-failure, and the descriptor write. -/

/-- Filesystem events of one tiling run: creation of a level directory, a
tile save attempt (recorded when the save is attempted, whether or not it
succeeds), and the descriptor write with its target path and content. -/
inductive Event where
  | mkdir (level : Nat)
  | saveTile (level col row : Nat)
  | writeDescriptor (path content : String)
deriving DecidableEq, Repr

/-- Success or failure of each tile save. -/
def Oracle : Type := Nat → Nat → Nat → Option TilingError

/-- Iteration order of the tile loops of create_level:
`for col in 0..c { for row in 0..r { ... } }`. -/
def tiles_list (c r : Nat) : List (Nat × Nat) :=
  (List.range c).flatMap (fun col => (List.range r).map (fun row => (col, row)))

/-- Embeds the tile loop of TileCreator::create_level: per tile,
get_tile_bounds (propagating its error), crop, then the save whose outcome
the oracle decides; the first failure aborts the loop. -/
def save_tiles (tc : TileCreator) (oracle : Oracle) (level : Nat) :
    List (Nat × Nat) → List Event × Option TilingError
  | [] => ([], none)
  | (col, row) :: rest =>
    match get_tile_bounds tc level col row with
    | Except.error e => ([], some e)
    | Except.ok _ =>
      match oracle level col row with
      | some e => ([Event.saveTile level col row], some e)
      | none =>
        let p := save_tiles tc oracle level rest
        (Event.saveTile level col row :: p.1, p.2)

/-- Embeds TileCreator::create_level: create the level directory, render the
level image, compute the grid, then save every tile in loop order. -/
def create_level (tc : TileCreator) (oracle : Oracle) (level : Nat) :
    List Event × Option TilingError :=
  match get_level_image tc level with
  | Except.error e => ([Event.mkdir level], some e)
  | Except.ok _ =>
    match get_tile_count tc level with
    | Except.error e => ([Event.mkdir level], some e)
    | Except.ok (c, r) =>
      let p := save_tiles tc oracle level (tiles_list c r)
      (Event.mkdir level :: p.1, p.2)

/-- Embeds the level loop of TileCreator::create_tiles:
`for l in 0..self.levels { self.create_level(l)? }`, aborting at the first
failing level. -/
def run_levels (tc : TileCreator) (oracle : Oracle) :
    List Nat → List Event × Option TilingError
  | [] => ([], none)
  | l :: rest =>
    let p := create_level tc oracle l
    match p.2 with
    | some e => (p.1, some e)
    | none =>
      let q := run_levels tc oracle rest
      (p.1 ++ q.1, q.2)

/-- Embeds the descriptor text of TileCreator::create_tiles: the format!
literal of src/lib.rs with its four holes filled with tile_size,
tile_overlap, and the dimensions passed in (create_tiles passes the source
image dimensions). -/
def descriptor_xml (ts ov w h : Nat) : String :=
  "<?xml version=\"1.0\" encoding=\"UTF-8\"?>\n<Image xmlns=\"http://schemas.microsoft.com/deepzoom/2008\"\n    TileSize=\"" ++
    toString ts ++
    "\"\n    Overlap=\"" ++
    toString ov ++
    "\"\n    Format=\"jpg\">\n    <Size Width=\"" ++
    toString w ++
    "\" Height=\"" ++
    toString h ++
    "\"/>\n</Image>"

/-- Modelled from the spec: the XML document of section 4.5 of the
specification, its seven lines joined by newlines, with the configured
tile_size and tile_overlap and the full-resolution width and height
substituted for the four placeholders. -/
def spec_descriptor (tile_size tile_overlap full_width full_height : Nat) :
    String :=
  String.intercalate "\n"
    ["<?xml version=\"1.0\" encoding=\"UTF-8\"?>",
     "<Image xmlns=\"http://schemas.microsoft.com/deepzoom/2008\"",
     "    TileSize=\"" ++ toString tile_size ++ "\"",
     "    Overlap=\"" ++ toString tile_overlap ++ "\"",
     "    Format=\"jpg\">",
     "    <Size Width=\"" ++ toString full_width ++ "\" Height=\"" ++
       toString full_height ++ "\"/>",
     "</Image>"]

/-- Embeds TileCreator::create_tiles: run levels 0..levels in ascending
order; only when every level succeeded, write the descriptor (built from the
source image dimensions) to dzi_file_path. -/
def create_tiles_run (tc : TileCreator) (oracle : Oracle) :
    List Event × Option TilingError :=
  let p := run_levels tc oracle (List.range tc.levels)
  match p.2 with
  | some e => (p.1, some e)
  | none =>
    (p.1 ++ [Event.writeDescriptor tc.dzi_file_path
      (descriptor_xml tc.tile_size tc.tile_overlap tc.width tc.height)], none)

/-- Projection of an event to its tile coordinates, when it is a save. -/
def save_of : Event → Option (Nat × Nat × Nat)
  | Event.saveTile l c r => some (l, c, r)
  | _ => none

/-- Tile save attempts of a trace, in order. -/
def saves (es : List Event) : List (Nat × Nat × Nat) := es.filterMap save_of

/-- Recognises the descriptor write event. -/
def is_descriptor : Event → Bool
  | Event.writeDescriptor _ _ => true
  | _ => false

/-- Number of descriptor writes in a trace. -/
def descriptor_count (es : List Event) : Nat := es.countP is_descriptor

/-- The full planned tile sequence over a list of levels, in processing
order. -/
def planned_over (tc : TileCreator) (ls : List Nat) : List (Nat × Nat × Nat) :=
  ls.flatMap (fun l =>
    match get_tile_count tc l with
    | Except.error _ => []
    | Except.ok (c, r) => (tiles_list c r).map (fun p => (l, p.1, p.2)))

/-- The full planned tile sequence of a run: ascending levels, and inside a
level the loop order of create_level. -/
def planned_tiles (tc : TileCreator) : List (Nat × Nat × Nat) :=
  planned_over tc (List.range tc.levels)

/-! Bridging lemmas between the structural definitions and the Mathlib
logarithm API. -/

lemma clog2F_eq_clog : ∀ fuel n, n ≤ fuel → clog2F fuel n = Nat.clog 2 n := by
  intro fuel
  induction fuel with
  | zero =>
    intro n hn
    have hn0 : n = 0 := Nat.le_zero.mp hn
    subst hn0
    simp [clog2F]
  | succ fuel ih =>
    intro n hn
    by_cases h1 : n ≤ 1
    · rw [show clog2F (fuel + 1) n = 0 by simp [clog2F, h1],
        Nat.clog_of_right_le_one h1]
    · push_neg at h1
      have h2 : 2 ≤ n := h1
      rw [show clog2F (fuel + 1) n = clog2F fuel ((n + 1) / 2) + 1 by
          simp [clog2F]; omega,
        ih ((n + 1) / 2) (by omega),
        Nat.clog_of_two_le one_lt_two h2,
        show (n + 2 - 1) / 2 = (n + 1) / 2 by omega]

lemma clog2_eq_clog (n : Nat) : clog2 n = Nat.clog 2 n :=
  clog2F_eq_clog n n le_rfl

lemma calculate_levels_eq_clog (w h : Nat) :
    calculate_levels w h = Nat.clog 2 (Nat.max h w) + 1 := by
  unfold calculate_levels
  rw [clog2_eq_clog]

lemma bit_lengthF_spec : ∀ fuel n, n ≤ fuel → 1 ≤ n →
    2 ^ (bit_lengthF fuel n - 1) ≤ n ∧ n < 2 ^ bit_lengthF fuel n := by
  intro fuel
  induction fuel with
  | zero => intro n hn h1; omega
  | succ fuel ih =>
    intro n hn h1
    have hne : n ≠ 0 := by omega
    rw [show bit_lengthF (fuel + 1) n = bit_lengthF fuel (n / 2) + 1 by
        simp [bit_lengthF, hne]]
    by_cases h2 : n / 2 = 0
    · have : n = 1 := by omega
      subst this
      simp [show bit_lengthF fuel 0 = 0 by cases fuel <;> simp [bit_lengthF]]
    · have hrec := ih (n / 2) (by omega) (by omega)
      constructor
      · calc 2 ^ (bit_lengthF fuel (n / 2) + 1 - 1)
            = 2 ^ (bit_lengthF fuel (n / 2) - 1) * 2 ^ (1 - 1 + 1) := by
              rw [← pow_add]
              congr 1
              have : 1 ≤ bit_lengthF fuel (n / 2) := by
                by_contra hz
                have : bit_lengthF fuel (n / 2) = 0 := by omega
                rw [this] at hrec
                omega
              omega
          _ ≤ n := by
              have := hrec.1
              simp only [Nat.sub_self, Nat.zero_add, pow_one]
              omega
      · have := hrec.2
        rw [pow_succ]
        omega

/-- Certifies that bit_length is the standard bit length: for n >= 1 it is
the unique k with 2^(k-1) <= n < 2^k. -/
lemma bit_length_spec (n : Nat) (h1 : 1 ≤ n) :
    2 ^ (bit_length n - 1) ≤ n ∧ n < 2 ^ bit_length n :=
  bit_lengthF_spec n n le_rfl h1

/-! Claim C1. -/

/-- Claim C1, counterexample: at the source image 5184 x 3456 (the test input
of src/lib.rs), calculate_levels returns 14, while the bit length of
max(width, height) = 5184 is 13 (certified: 2^12 <= 5184 < 2^13), so the
number of levels does not equal the bit length of max(width, height). -/
theorem calculate_levels_ne_bit_length :
    calculate_levels 5184 3456 = 14 ∧
    bit_length (Nat.max 3456 5184) = 13 ∧
    2 ^ 12 ≤ 5184 ∧ 5184 < 2 ^ 13 ∧
    calculate_levels 5184 3456 ≠ bit_length (Nat.max 3456 5184) := by
  refine ⟨by decide, by decide, by decide, by decide, by decide⟩

/-- Claim C1 (amended): for max(width, height) >= 1, the computed number of
pyramid levels is the smallest integer L >= 1 such that
2^(L-1) >= max(width, height); equivalently ceil(log2 max) + 1.  It equals
the bit length of max(width, height) only when that maximum is a power of
two, and the Rust source computes it through f64 log2 and ceil (exact on the
whole u32 range), not by an exact-integer method. -/
theorem calculate_levels_least (w h : Nat) (_hmax : 1 ≤ Nat.max h w) :
    1 ≤ calculate_levels w h ∧
    Nat.max h w ≤ 2 ^ (calculate_levels w h - 1) ∧
    (∀ L, 1 ≤ L → Nat.max h w ≤ 2 ^ (L - 1) → calculate_levels w h ≤ L) := by
  rw [calculate_levels_eq_clog]
  refine ⟨by omega, ?_, ?_⟩
  · simpa using Nat.le_pow_clog one_lt_two (Nat.max h w)
  · intro L hL hpow
    have := (Nat.le_pow_iff_clog_le one_lt_two).1 hpow
    omega

/-- Claim C1, witness: the amended theorem applied at the concrete source
size 5184 x 3456. -/
theorem calculate_levels_least_witness :
    1 ≤ Nat.max 3456 5184 ∧
    (1 ≤ calculate_levels 5184 3456 ∧
      Nat.max 3456 5184 ≤ 2 ^ (calculate_levels 5184 3456 - 1) ∧
      (∀ L, 1 ≤ L → Nat.max 3456 5184 ≤ 2 ^ (L - 1) →
        calculate_levels 5184 3456 ≤ L)) :=
  ⟨by decide, calculate_levels_least 5184 3456 (by decide)⟩

/-! Claim C5. -/

/-- Claim C5: for a 5184 x 3456 source with tile_size 254 and tile_overlap 1,
the level count is 14, the top level has the source dimensions, level 1 has
dimensions (2, 1), and level 13 has a 21 x 14 tile grid (the values asserted
by the test test_info of src/lib.rs). -/
theorem test_info_values :
    (tcOf "test_files" "test.dzi" 5184 3456 254 1).levels = 14 ∧
    get_dimensions (tcOf "test_files" "test.dzi" 5184 3456 254 1) 13 =
      Except.ok (5184, 3456) ∧
    get_dimensions (tcOf "test_files" "test.dzi" 5184 3456 254 1) 1 =
      Except.ok (2, 1) ∧
    get_tile_count (tcOf "test_files" "test.dzi" 5184 3456 254 1) 13 =
      Except.ok (21, 14) :=
  ⟨rfl, rfl, rfl, rfl⟩

/-! Claim C6. -/

/-- Claim C6, counterexample: a raw RGB constructor call for a 1 x 1 image
with a 4-byte buffer succeeds although 4 is not equal to 1*1*3; the length
check of the underlying ImageBuffer::from_raw only rejects buffers that are
too short. -/
theorem new_from_rgb_accepts_oversized :
    new_from_rgb 4 1 1 254 1 "test_files" "test.dzi" =
      Except.ok (tcOf "test_files" "test.dzi" 1 1 254 1) ∧
    4 ≠ 1 * 1 * 3 :=
  ⟨rfl, by decide⟩

/-- Claim C6 (amended): constructing from a raw RGB buffer fails, with the
IncorrectRGBInputDimensions error (the DimensionMismatch kind of the
specification), exactly when the buffer length is smaller than
width*height*3; it succeeds exactly when the length is at least
width*height*3, so oversized buffers are accepted. -/
theorem new_from_rgb_iff (len w h ts ov : Nat) (dest dzi : String) :
    (new_from_rgb len w h ts ov dest dzi =
        Except.error TilingError.IncorrectRGBInputDimensions ↔
      len < w * h * 3) ∧
    (new_from_rgb len w h ts ov dest dzi = Except.ok (tcOf dest dzi w h ts ov) ↔
      w * h * 3 ≤ len) := by
  unfold new_from_rgb
  split_ifs with hc
  · exact ⟨⟨fun he => absurd he (by simp), fun hlt => absurd hc (by omega)⟩,
      ⟨fun _ => hc, fun _ => rfl⟩⟩
  · exact ⟨⟨fun _ => by omega, fun _ => rfl⟩,
      ⟨fun he => absurd he (by simp), fun hle => absurd hle hc⟩⟩

/-! Evaluation lemmas for the level-dependent operations. -/

lemma check_level_ok {tc : TileCreator} {l : Nat} (hl : l < tc.levels) :
    check_level tc l = Except.ok () := by
  unfold check_level
  rw [if_neg (by omega)]

lemma check_level_err {tc : TileCreator} {l : Nat} (hl : tc.levels ≤ l) :
    check_level tc l = Except.error TilingError.UnexpectedError := by
  unfold check_level
  rw [if_pos (by omega)]

lemma get_dimensions_of_valid {tc : TileCreator} {l : Nat} (hl : l < tc.levels) :
    get_dimensions tc l =
      Except.ok (ceilDiv tc.width (2 ^ (tc.levels - 1 - l)),
        ceilDiv tc.height (2 ^ (tc.levels - 1 - l))) := by
  unfold get_dimensions
  rw [check_level_ok hl]

lemma get_dimensions_of_invalid {tc : TileCreator} {l : Nat} (hl : tc.levels ≤ l) :
    get_dimensions tc l = Except.error TilingError.UnexpectedError := by
  unfold get_dimensions
  rw [check_level_err hl]

lemma get_dimensions_ok_elim {tc : TileCreator} {l lw lh : Nat}
    (hdim : get_dimensions tc l = Except.ok (lw, lh)) :
    l < tc.levels ∧
    lw = ceilDiv tc.width (2 ^ (tc.levels - 1 - l)) ∧
    lh = ceilDiv tc.height (2 ^ (tc.levels - 1 - l)) := by
  by_cases hl : l < tc.levels
  · rw [get_dimensions_of_valid hl] at hdim
    simp only [Except.ok.injEq, Prod.mk.injEq] at hdim
    exact ⟨hl, hdim.1.symm, hdim.2.symm⟩
  · rw [get_dimensions_of_invalid (by omega)] at hdim
    exact absurd hdim (by simp)

lemma get_scale_of_valid {tc : TileCreator} {l : Nat} (hl : l < tc.levels) :
    get_scale tc l = Except.ok ((1 / 2 : ℚ) ^ (tc.levels - 1 - l)) := by
  unfold get_scale
  rw [check_level_ok hl]

lemma get_scale_of_invalid {tc : TileCreator} {l : Nat} (hl : tc.levels ≤ l) :
    get_scale tc l = Except.error TilingError.UnexpectedError := by
  unfold get_scale
  rw [check_level_err hl]

lemma get_level_image_of_valid {tc : TileCreator} {l : Nat} (hl : l < tc.levels) :
    get_level_image tc l = Except.ok () := by
  unfold get_level_image
  rw [check_level_ok hl, get_dimensions_of_valid hl]

lemma get_level_image_of_invalid {tc : TileCreator} {l : Nat} (hl : tc.levels ≤ l) :
    get_level_image tc l = Except.error TilingError.UnexpectedError := by
  unfold get_level_image
  rw [check_level_err hl]

lemma get_tile_count_of_valid {tc : TileCreator} {l : Nat} (hl : l < tc.levels) :
    get_tile_count tc l =
      Except.ok
        (fceil_div_u32 (ceilDiv tc.width (2 ^ (tc.levels - 1 - l))) tc.tile_size,
         fceil_div_u32 (ceilDiv tc.height (2 ^ (tc.levels - 1 - l))) tc.tile_size) := by
  unfold get_tile_count
  rw [get_dimensions_of_valid hl]

lemma get_tile_count_of_invalid {tc : TileCreator} {l : Nat} (hl : tc.levels ≤ l) :
    get_tile_count tc l = Except.error TilingError.UnexpectedError := by
  unfold get_tile_count
  rw [get_dimensions_of_invalid hl]

lemma get_tile_count_ok_elim {tc : TileCreator} {l cols rows lw lh : Nat}
    (hdim : get_dimensions tc l = Except.ok (lw, lh))
    (hcnt : get_tile_count tc l = Except.ok (cols, rows)) :
    cols = fceil_div_u32 lw tc.tile_size ∧ rows = fceil_div_u32 lh tc.tile_size := by
  unfold get_tile_count at hcnt
  rw [hdim] at hcnt
  simp only [Except.ok.injEq, Prod.mk.injEq] at hcnt
  exact ⟨hcnt.1.symm, hcnt.2.symm⟩

lemma get_tile_bounds_of_valid {tc : TileCreator} {l : Nat} (col row : Nat)
    (hl : l < tc.levels) :
    ∃ b, get_tile_bounds tc l col row = Except.ok b := by
  unfold get_tile_bounds
  rw [get_dimensions_of_valid hl]
  exact ⟨_, rfl⟩

lemma get_tile_bounds_of_invalid {tc : TileCreator} {l : Nat} (col row : Nat)
    (hl : tc.levels ≤ l) :
    get_tile_bounds tc l col row = Except.error TilingError.UnexpectedError := by
  unfold get_tile_bounds
  rw [get_dimensions_of_invalid hl]

/-! Claim C7. -/

/-- Claim C7: each level-dependent operation (scale, dimensions, level image,
tile bounds) fails with the UnexpectedError variant (the InvalidLevel kind of
the specification, produced only by check_level) when the level is outside
[0, levels), and returns Ok when the level is inside [0, levels). -/
theorem level_ops_invalid_iff (dest dzi : String) (w h ts ov l : Nat) :
    ((tcOf dest dzi w h ts ov).levels ≤ l →
      get_scale (tcOf dest dzi w h ts ov) l =
        Except.error TilingError.UnexpectedError ∧
      get_dimensions (tcOf dest dzi w h ts ov) l =
        Except.error TilingError.UnexpectedError ∧
      get_level_image (tcOf dest dzi w h ts ov) l =
        Except.error TilingError.UnexpectedError ∧
      (∀ col row, get_tile_bounds (tcOf dest dzi w h ts ov) l col row =
        Except.error TilingError.UnexpectedError)) ∧
    (l < (tcOf dest dzi w h ts ov).levels →
      (∃ s, get_scale (tcOf dest dzi w h ts ov) l = Except.ok s) ∧
      (∃ d, get_dimensions (tcOf dest dzi w h ts ov) l = Except.ok d) ∧
      get_level_image (tcOf dest dzi w h ts ov) l = Except.ok () ∧
      (∀ col row, ∃ b,
        get_tile_bounds (tcOf dest dzi w h ts ov) l col row = Except.ok b)) := by
  constructor
  · intro hge
    exact ⟨get_scale_of_invalid hge, get_dimensions_of_invalid hge,
      get_level_image_of_invalid hge,
      fun col row => get_tile_bounds_of_invalid col row hge⟩
  · intro hlt
    exact ⟨⟨_, get_scale_of_valid hlt⟩, ⟨_, get_dimensions_of_valid hlt⟩,
      get_level_image_of_valid hlt,
      fun col row => get_tile_bounds_of_valid col row hlt⟩

/-- Claim C7, witness: for a 1 x 1 source (a single level), level 5 makes
get_scale fail with UnexpectedError and level 0 makes get_dimensions
succeed. -/
theorem level_ops_invalid_iff_witness :
    get_scale (tcOf "t_files" "t.dzi" 1 1 254 1) 5 =
      Except.error TilingError.UnexpectedError ∧
    (∃ d, get_dimensions (tcOf "t_files" "t.dzi" 1 1 254 1) 0 = Except.ok d) :=
  ⟨((level_ops_invalid_iff "t_files" "t.dzi" 1 1 254 1 5).1 (by decide)).1,
   ((level_ops_invalid_iff "t_files" "t.dzi" 1 1 254 1 0).2 (by decide)).2.1⟩

/-! Arithmetic lemmas: wrapping operations below the modulus agree with the
mathematical operations, and ceiling division bounds. -/

lemma wadd_eq {a b : Nat} (h : a + b < M) : wadd a b = a + b := by
  unfold wadd
  exact Nat.mod_eq_of_lt h

lemma wmul_eq {a b : Nat} (ha : a < M) (hb : b < M) (h : a * b < M) :
    wmul a b = a * b := by
  unfold wmul
  rw [Nat.mod_eq_of_lt ha, Nat.mod_eq_of_lt hb]
  exact Nat.mod_eq_of_lt h

lemma wsub_eq {a b : Nat} (ha : a < M) (hb : b ≤ a) : wsub a b = a - b := by
  unfold wsub
  rw [Nat.mod_eq_of_lt ha, Nat.mod_eq_of_lt (lt_of_le_of_lt hb ha),
    show a + (M - b) = a - b + M by omega, Nat.add_mod_right,
    Nat.mod_eq_of_lt (by omega)]

lemma ceilDiv_le_self {a b : Nat} (hb : 1 ≤ b) : ceilDiv a b ≤ a := by
  unfold ceilDiv
  have h1 : (a + b - 1) / b < a + 1 := by
    rw [Nat.div_lt_iff_lt_mul (by omega)]
    have h2 : (a + 1) * b = a * b + b := by ring
    have h3 : a * 1 ≤ a * b := Nat.mul_le_mul_left a hb
    omega
  omega

lemma mul_lt_of_lt_ceilDiv {lw ts col : Nat} (hts : 1 ≤ ts)
    (h : col < ceilDiv lw ts) : col * ts < lw := by
  unfold ceilDiv at h
  by_contra hle
  push_neg at hle
  have h3 : (lw + ts - 1) / ts < col + 1 := by
    rw [Nat.div_lt_iff_lt_mul (by omega)]
    have h2 : (col + 1) * ts = col * ts + ts := by ring
    omega
  omega

/-- Wrapping evaluation along one axis of get_tile_bounds: when the tile size
is positive, the overlap does not exceed the tile size, the nominal extended
tile size does not overflow u32, and the tile start lies inside the level
extent, the wrapping operations compute the mathematical values. -/
lemma axis_eval (ts ov pos ext : Nat) (hts : 1 ≤ ts) (hov : ov ≤ ts)
    (hsum : ts + 2 * ov < M) (hext : ext < M) (hpos : pos * ts < ext) :
    wsub (wmul pos ts) (if pos = 0 then 0 else ov) =
      pos * ts - (if pos = 0 then 0 else ov) ∧
    wadd (wsub (wmul pos ts) (if pos = 0 then 0 else ov))
      (min (wadd ts (wmul (if pos = 0 then 1 else 2) ov))
        (wsub ext (wsub (wmul pos ts) (if pos = 0 then 0 else ov)))) =
      (pos * ts - (if pos = 0 then 0 else ov)) +
        min (ts + (if pos = 0 then 1 else 2) * ov)
          (ext - (pos * ts - (if pos = 0 then 0 else ov))) := by
  have hM : (2 : Nat) < M := by norm_num [M]
  have htsM : ts < M := by omega
  have hovM : ov < M := by omega
  have hposts : pos * ts < M := by omega
  have hposM : pos < M := by
    have : pos ≤ pos * ts := Nat.le_mul_of_pos_right pos (by omega)
    omega
  by_cases hp : pos = 0
  · subst hp
    simp only [if_true, eq_self_iff_true]
    have h0 : wmul 0 ts = 0 := by
      rw [wmul_eq (by omega) htsM (by omega), Nat.zero_mul]
    have hx : wsub (wmul 0 ts) 0 = 0 := by
      rw [h0, wsub_eq (by omega) (le_refl 0)]
    refine ⟨by rw [hx]; omega, ?_⟩
    rw [hx]
    have h1ov : wmul 1 ov = 1 * ov := wmul_eq (by omega) hovM (by omega)
    have hnom : wadd ts (1 * ov) = ts + 1 * ov := @wadd_eq ts (1 * ov) (by omega)
    have hwe : wsub ext 0 = ext - 0 := wsub_eq hext (Nat.zero_le ext)
    rw [h1ov, hnom, hwe]
    have hminle : min (ts + 1 * ov) (ext - 0) ≤ ext := by
      have := min_le_right (ts + 1 * ov) (ext - 0)
      omega
    have houter : wadd 0 (min (ts + 1 * ov) (ext - 0)) =
        0 + min (ts + 1 * ov) (ext - 0) :=
      @wadd_eq 0 (min (ts + 1 * ov) (ext - 0)) (by omega)
    rw [houter]
    omega
  · simp only [if_neg hp]
    have hle1 : ts ≤ pos * ts := by
      have h1 : 1 * ts ≤ pos * ts := Nat.mul_le_mul_right ts (by omega)
      omega
    have hx : wsub (wmul pos ts) ov = pos * ts - ov := by
      rw [wmul_eq hposM htsM hposts]
      exact wsub_eq hposts (by omega)
    refine ⟨hx, ?_⟩
    rw [hx]
    have hx0 : pos * ts - ov ≤ ext := by omega
    have h2ov : wmul 2 ov = 2 * ov := wmul_eq (by omega) hovM (by omega)
    have hnom : wadd ts (2 * ov) = ts + 2 * ov := @wadd_eq ts (2 * ov) (by omega)
    have hwe : wsub ext (pos * ts - ov) = ext - (pos * ts - ov) :=
      wsub_eq hext hx0
    rw [h2ov, hnom, hwe]
    have hminle : min (ts + 2 * ov) (ext - (pos * ts - ov)) ≤
        ext - (pos * ts - ov) := min_le_right _ _
    have houter : wadd (pos * ts - ov)
        (min (ts + 2 * ov) (ext - (pos * ts - ov))) =
        (pos * ts - ov) + min (ts + 2 * ov) (ext - (pos * ts - ov)) :=
      @wadd_eq (pos * ts - ov)
        (min (ts + 2 * ov) (ext - (pos * ts - ov))) (by omega)
    rw [houter]

/-- Main evaluation of get_tile_bounds: under a positive tile size, overlap
at most the tile size, no u32 overflow of the nominal extended tile size,
u32 source dimensions, and a tile whose start lies inside the level, the
wrapping u32 arithmetic of the Rust source computes exactly the mathematical
DZI bounds formula. -/
lemma tile_bounds_eval (tc : TileCreator) (l col row lw lh : Nat)
    (hts : 1 ≤ tc.tile_size) (hov : tc.tile_overlap ≤ tc.tile_size)
    (hsum : tc.tile_size + 2 * tc.tile_overlap < M)
    (hw : tc.width < M) (hh : tc.height < M)
    (hdim : get_dimensions tc l = Except.ok (lw, lh))
    (hcol : col * tc.tile_size < lw) (hrow : row * tc.tile_size < lh) :
    get_tile_bounds tc l col row = Except.ok
      (col * tc.tile_size - (if col = 0 then 0 else tc.tile_overlap),
       row * tc.tile_size - (if row = 0 then 0 else tc.tile_overlap),
       (col * tc.tile_size - (if col = 0 then 0 else tc.tile_overlap)) +
         min (tc.tile_size + (if col = 0 then 1 else 2) * tc.tile_overlap)
           (lw - (col * tc.tile_size - (if col = 0 then 0 else tc.tile_overlap))),
       (row * tc.tile_size - (if row = 0 then 0 else tc.tile_overlap)) +
         min (tc.tile_size + (if row = 0 then 1 else 2) * tc.tile_overlap)
           (lh - (row * tc.tile_size - (if row = 0 then 0 else tc.tile_overlap)))) := by
  obtain ⟨hl, hlw, hlh⟩ := get_dimensions_ok_elim hdim
  have hlwM : lw < M := by
    have := ceilDiv_le_self (a := tc.width)
      (b := 2 ^ (tc.levels - 1 - l)) (Nat.one_le_two_pow)
    omega
  have hlhM : lh < M := by
    have := ceilDiv_le_self (a := tc.height)
      (b := 2 ^ (tc.levels - 1 - l)) (Nat.one_le_two_pow)
    omega
  have hax := axis_eval tc.tile_size tc.tile_overlap col lw hts hov hsum hlwM hcol
  have hay := axis_eval tc.tile_size tc.tile_overlap row lh hts hov hsum hlhM hrow
  unfold get_tile_bounds
  rw [hdim]
  simp only [Except.ok.injEq, Prod.mk.injEq]
  exact ⟨hax.1, hay.1, hax.2, hay.2⟩

lemma grid_mem_lt {tc : TileCreator} {l col row lw lh cols rows : Nat}
    (hts : 1 ≤ tc.tile_size)
    (hdim : get_dimensions tc l = Except.ok (lw, lh))
    (hcnt : get_tile_count tc l = Except.ok (cols, rows))
    (hcol : col < cols) (hrow : row < rows) :
    col * tc.tile_size < lw ∧ row * tc.tile_size < lh := by
  obtain ⟨hc, hr⟩ := get_tile_count_ok_elim hdim hcnt
  subst hc hr
  unfold fceil_div_u32 at hcol hrow
  rw [if_neg (by omega)] at hcol hrow
  exact ⟨mul_lt_of_lt_ceilDiv hts hcol, mul_lt_of_lt_ceilDiv hts hrow⟩

/-! Claim C3. -/

/-- Claim C3 (amended): for a valid level and a tile of its grid, and a
configuration with a positive tile size, overlap at most the tile size, and
a nominal extended tile size below 2^32 (no u32 wrap in the bounds formula),
get_tile_bounds returns exactly x0 = col*tile_size minus (0 for the first
column, tile_overlap otherwise), y0 analogously, width clamped as
min(tile_size + overlap*(1 or 2), level_width - x0), height analogously, and
x1 = x0 + width, y1 = y0 + height; first-column and first-row tiles carry no
leading overlap. -/
theorem tile_bounds_formula (tc : TileCreator) (l col row lw lh cols rows : Nat)
    (hts : 1 ≤ tc.tile_size) (hov : tc.tile_overlap ≤ tc.tile_size)
    (hsum : tc.tile_size + 2 * tc.tile_overlap < M)
    (hw : tc.width < M) (hh : tc.height < M)
    (hdim : get_dimensions tc l = Except.ok (lw, lh))
    (hcnt : get_tile_count tc l = Except.ok (cols, rows))
    (hcol : col < cols) (hrow : row < rows) :
    get_tile_bounds tc l col row = Except.ok
      (col * tc.tile_size - (if col = 0 then 0 else tc.tile_overlap),
       row * tc.tile_size - (if row = 0 then 0 else tc.tile_overlap),
       (col * tc.tile_size - (if col = 0 then 0 else tc.tile_overlap)) +
         min (tc.tile_size + (if col = 0 then 1 else 2) * tc.tile_overlap)
           (lw - (col * tc.tile_size - (if col = 0 then 0 else tc.tile_overlap))),
       (row * tc.tile_size - (if row = 0 then 0 else tc.tile_overlap)) +
         min (tc.tile_size + (if row = 0 then 1 else 2) * tc.tile_overlap)
           (lh - (row * tc.tile_size - (if row = 0 then 0 else tc.tile_overlap)))) := by
  obtain ⟨hcol2, hrow2⟩ := grid_mem_lt hts hdim hcnt hcol hrow
  exact tile_bounds_eval tc l col row lw lh hts hov hsum hw hh hdim hcol2 hrow2

/-- Claim C3, witness: the formula applied to the 5184 x 3456 source with
tile_size 254 and tile_overlap 1, at level 13, tile (1, 1): both axes start
one overlap pixel early and extend 254 + 2 pixels. -/
theorem tile_bounds_formula_witness :
    get_tile_count (tcOf "test_files" "test.dzi" 5184 3456 254 1) 13 =
      Except.ok (21, 14) ∧
    get_tile_bounds (tcOf "test_files" "test.dzi" 5184 3456 254 1) 13 1 1 =
      Except.ok (253, 253, 509, 509) :=
  ⟨rfl,
    tile_bounds_formula (tcOf "test_files" "test.dzi" 5184 3456 254 1)
      13 1 1 5184 3456 21 14 (by decide) (by decide) (by decide) (by decide)
      (by decide) rfl rfl (by decide) (by decide)⟩

/-- Claim C3, counterexample: with tile_overlap 2 greater than tile_size 1 on
a 3 x 1 source, the grid of level 2 is 3 x 1 and tile (1, 0) lies in it, but
the u32 subtraction col*tile_size - tile_overlap wraps, so the returned x0 is
4294967295 and not the value col*tile_size - tile_overlap = -1 of the
claimed integer formula. -/
theorem tile_bounds_formula_cex :
    get_tile_count (tcOf "f_files" "f.dzi" 3 1 1 2) 2 = Except.ok (3, 1) ∧
    get_tile_bounds (tcOf "f_files" "f.dzi" 3 1 1 2) 2 1 0 =
      Except.ok (4294967295, 0, 3, 1) ∧
    ((4294967295 : ℤ) ≠ 1 * 1 - 2) :=
  ⟨rfl, rfl, by decide⟩

/-! Claim C2. -/

/-- Claim C2 (amended): for a valid level and a tile of its grid, and a
configuration with a positive tile size, overlap at most the tile size, and
a nominal extended tile size below 2^32, the returned bounds satisfy
0 <= x0 < x1 <= level_width and 0 <= y0 < y1 <= level_height (the lower
bounds 0 <= x0 and 0 <= y0 are inherent to the Nat embedding of u32). -/
theorem tile_bounds_within_level (tc : TileCreator)
    (l col row lw lh cols rows x0 y0 x1 y1 : Nat)
    (hts : 1 ≤ tc.tile_size) (hov : tc.tile_overlap ≤ tc.tile_size)
    (hsum : tc.tile_size + 2 * tc.tile_overlap < M)
    (hw : tc.width < M) (hh : tc.height < M)
    (hdim : get_dimensions tc l = Except.ok (lw, lh))
    (hcnt : get_tile_count tc l = Except.ok (cols, rows))
    (hcol : col < cols) (hrow : row < rows)
    (hbnd : get_tile_bounds tc l col row = Except.ok (x0, y0, x1, y1)) :
    x0 < x1 ∧ x1 ≤ lw ∧ y0 < y1 ∧ y1 ≤ lh := by
  obtain ⟨hcol2, hrow2⟩ := grid_mem_lt hts hdim hcnt hcol hrow
  rw [tile_bounds_eval tc l col row lw lh hts hov hsum hw hh hdim hcol2 hrow2]
    at hbnd
  simp only [Except.ok.injEq, Prod.mk.injEq] at hbnd
  obtain ⟨hx0, hy0, hx1, hy1⟩ := hbnd
  subst hx0 hy0 hx1 hy1
  have hcx : (if col = 0 then 0 else tc.tile_overlap) ≤ col * tc.tile_size := by
    by_cases hc : col = 0
    · simp [hc]
    · rw [if_neg hc]
      have h1 : 1 * tc.tile_size ≤ col * tc.tile_size :=
        Nat.mul_le_mul_right tc.tile_size (by omega)
      omega
  have hcy : (if row = 0 then 0 else tc.tile_overlap) ≤ row * tc.tile_size := by
    by_cases hr : row = 0
    · simp [hr]
    · rw [if_neg hr]
      have h1 : 1 * tc.tile_size ≤ row * tc.tile_size :=
        Nat.mul_le_mul_right tc.tile_size (by omega)
      omega
  refine ⟨?_, ?_, ?_, ?_⟩ <;> omega

/-- Claim C2, witness: the last tile (20, 13) of level 13 for the
5184 x 3456 source with tile_size 254 and tile_overlap 1 is clamped flush to
the level edge: bounds (5079, 3301, 5184, 3456). -/
theorem tile_bounds_within_level_witness :
    get_tile_bounds (tcOf "test_files" "test.dzi" 5184 3456 254 1) 13 20 13 =
      Except.ok (5079, 3301, 5184, 3456) ∧
    (5079 < 5184 ∧ 5184 ≤ 5184 ∧ 3301 < 3456 ∧ 3456 ≤ 3456) :=
  ⟨rfl,
    tile_bounds_within_level (tcOf "test_files" "test.dzi" 5184 3456 254 1)
      13 20 13 5184 3456 21 14 5079 3301 5184 3456 (by decide) (by decide)
      (by decide) (by decide) (by decide) rfl rfl (by decide) (by decide) rfl⟩

/-- Claim C2, counterexample: with tile_overlap 2 greater than tile_size 1 on
a 2 x 1 source, level 1 has dimensions (2, 1) and a 2 x 1 grid, tile (1, 0)
lies in the grid, but the u32 subtraction wraps and the returned bounds are
(4294967295, 0, 2, 1), violating x0 < x1 (and x0 <= level_width). -/
theorem tile_bounds_within_level_cex :
    get_dimensions (tcOf "cex_files" "cex.dzi" 2 1 1 2) 1 = Except.ok (2, 1) ∧
    get_tile_count (tcOf "cex_files" "cex.dzi" 2 1 1 2) 1 = Except.ok (2, 1) ∧
    get_tile_bounds (tcOf "cex_files" "cex.dzi" 2 1 1 2) 1 1 0 =
      Except.ok (4294967295, 0, 2, 1) ∧
    ¬(4294967295 < 2) :=
  ⟨rfl, rfl, rfl, by decide⟩

/-! Claim C10. -/

/-- Claim C10: get_tile_bounds performs no range check on col and row; under
the preconditions that the level is valid, the tile lies in the grid of
tile_count, tile_size >= 1 and tile_overlap <= tile_size, every u32
subtraction in its evaluation stays non-negative (the offset is at most
col*tile_size, and x0 and y0 stay within the level dimensions), and the call
returns Ok; without these preconditions the subtractions underflow, shown by
two concrete instances: tile_overlap 2 > tile_size 1 with col = 1 wraps
col*tile_size - overlap to 4294967295, and col = 3 beyond a 2-column grid
makes level_width - x0 wrap (wsub 3 5 = 2^32 - 2), yielding bounds that
leave the level. -/
theorem tile_bounds_underflow_guard :
    (∀ (tc : TileCreator) (l col row lw lh cols rows : Nat),
      1 ≤ tc.tile_size → tc.tile_overlap ≤ tc.tile_size →
      get_dimensions tc l = Except.ok (lw, lh) →
      get_tile_count tc l = Except.ok (cols, rows) →
      col < cols → row < rows →
      (if col = 0 then 0 else tc.tile_overlap) ≤ col * tc.tile_size ∧
      col * tc.tile_size - (if col = 0 then 0 else tc.tile_overlap) ≤ lw ∧
      (if row = 0 then 0 else tc.tile_overlap) ≤ row * tc.tile_size ∧
      row * tc.tile_size - (if row = 0 then 0 else tc.tile_overlap) ≤ lh ∧
      ∃ b, get_tile_bounds tc l col row = Except.ok b) ∧
    (1 * 1 < 2 ∧
      get_tile_bounds (tcOf "ov_files" "ov.dzi" 2 1 1 2) 1 1 0 =
        Except.ok (4294967295, 0, 2, 1)) ∧
    (get_tile_count (tcOf "cols_files" "cols.dzi" 3 1 2 1) 2 =
        Except.ok (2, 1) ∧
      wsub 3 5 = M - 2 ∧
      get_tile_bounds (tcOf "cols_files" "cols.dzi" 3 1 2 1) 2 3 0 =
        Except.ok (5, 0, 9, 1) ∧
      get_dimensions (tcOf "cols_files" "cols.dzi" 3 1 2 1) 2 =
        Except.ok (3, 1) ∧ ¬(9 ≤ 3)) := by
  refine ⟨?_, ⟨by decide, rfl⟩, ⟨rfl, by decide, rfl, rfl, by decide⟩⟩
  intro tc l col row lw lh cols rows hts hov hdim hcnt hcol hrow
  obtain ⟨hcol2, hrow2⟩ := grid_mem_lt hts hdim hcnt hcol hrow
  have hl := (get_dimensions_ok_elim hdim).1
  have hcx : (if col = 0 then 0 else tc.tile_overlap) ≤ col * tc.tile_size := by
    by_cases hc : col = 0
    · simp [hc]
    · rw [if_neg hc]
      have h1 : 1 * tc.tile_size ≤ col * tc.tile_size :=
        Nat.mul_le_mul_right tc.tile_size (by omega)
      omega
  have hcy : (if row = 0 then 0 else tc.tile_overlap) ≤ row * tc.tile_size := by
    by_cases hr : row = 0
    · simp [hr]
    · rw [if_neg hr]
      have h1 : 1 * tc.tile_size ≤ row * tc.tile_size :=
        Nat.mul_le_mul_right tc.tile_size (by omega)
      omega
  exact ⟨hcx, by omega, hcy, by omega, get_tile_bounds_of_valid col row hl⟩

/-- Claim C10, witness: the universal part applied to the 5184 x 3456 source
with tile_size 254 and tile_overlap 1 at level 13, tile (1, 1). -/
theorem tile_bounds_underflow_guard_witness :
    1 ≤ 254 ∧
    ((if (1 : Nat) = 0 then 0 else 1) ≤ 1 * 254 ∧
      1 * 254 - (if (1 : Nat) = 0 then 0 else 1) ≤ 5184 ∧
      (if (1 : Nat) = 0 then 0 else 1) ≤ 1 * 254 ∧
      1 * 254 - (if (1 : Nat) = 0 then 0 else 1) ≤ 3456 ∧
      ∃ b, get_tile_bounds (tcOf "test_files" "test.dzi" 5184 3456 254 1)
        13 1 1 = Except.ok b) :=
  ⟨by decide,
    tile_bounds_underflow_guard.1
      (tcOf "test_files" "test.dzi" 5184 3456 254 1) 13 1 1 5184 3456 21 14
      (by decide) (by decide) rfl rfl (by decide) (by decide)⟩

/-! Claim C4. -/

/-- Ceiling division agrees with the rational ceiling of the exact
quotient. -/
lemma ceilDiv_eq_nat_ceil (a b : Nat) (hb : 1 ≤ b) :
    ceilDiv a b = ⌈(a : ℚ) / (b : ℚ)⌉₊ := by
  rcases Nat.eq_zero_or_pos a with ha | ha
  · subst ha
    rw [show ceilDiv 0 b = 0 by
        unfold ceilDiv
        rw [Nat.div_eq_of_lt (by omega)]]
    rw [Nat.cast_zero, zero_div, Nat.ceil_zero]
  · obtain ⟨q, hqdef⟩ : ∃ q, (a + b - 1) / b = q := ⟨_, rfl⟩
    have hq := Nat.div_add_mod (a + b - 1) b
    have hr : (a + b - 1) % b < b := Nat.mod_lt _ (by omega)
    rw [hqdef] at hq
    have hcd : ceilDiv a b = q := hqdef
    rw [hcd]
    cases q with
    | zero => omega
    | succ q2 =>
      have hexp : b * (q2 + 1) = b * q2 + b := by ring
      have hub : a ≤ b * (q2 + 1) := by omega
      have hcomm : q2 * b = b * q2 := Nat.mul_comm q2 b
      have hlb : q2 * b < a := by omega
      rw [eq_comm, Nat.ceil_eq_iff (by omega)]
      constructor
      · rw [lt_div_iff₀ (show (0 : ℚ) < (b : ℚ) by positivity)]
        have hcast : ((q2 : ℚ)) * (b : ℚ) < (a : ℚ) := by exact_mod_cast hlb
        have : ((q2 + 1 - 1 : Nat) : ℚ) = (q2 : ℚ) := by norm_num
        rw [this]
        exact hcast
      · rw [div_le_iff₀ (show (0 : ℚ) < (b : ℚ) by positivity)]
        have hcomm2 : (q2 + 1) * b = b * (q2 + 1) := Nat.mul_comm (q2 + 1) b
        have hub2 : a ≤ (q2 + 1) * b := by omega
        exact_mod_cast hub2

/-- Claim C4: for every valid level, the scale is exactly the rational
2^-(levels-1-level) with scale 1 at the top level, and the level dimensions
are the exact rational ceilings of source width and height times the scale;
in particular the top level has the source dimensions. -/
theorem scale_dimensions_spec (dest dzi : String) (w h ts ov l : Nat)
    (hl : l < (tcOf dest dzi w h ts ov).levels) :
    get_scale (tcOf dest dzi w h ts ov) l =
      Except.ok ((1 / 2 : ℚ) ^ ((tcOf dest dzi w h ts ov).levels - 1 - l)) ∧
    get_scale (tcOf dest dzi w h ts ov)
        ((tcOf dest dzi w h ts ov).levels - 1) = Except.ok 1 ∧
    get_dimensions (tcOf dest dzi w h ts ov) l =
      Except.ok
        (⌈((w : Nat) : ℚ) *
            (1 / 2 : ℚ) ^ ((tcOf dest dzi w h ts ov).levels - 1 - l)⌉₊,
         ⌈((h : Nat) : ℚ) *
            (1 / 2 : ℚ) ^ ((tcOf dest dzi w h ts ov).levels - 1 - l)⌉₊) ∧
    get_dimensions (tcOf dest dzi w h ts ov)
        ((tcOf dest dzi w h ts ov).levels - 1) = Except.ok (w, h) := by
  have hlev1 : 1 ≤ (tcOf dest dzi w h ts ov).levels := by
    have : (tcOf dest dzi w h ts ov).levels =
        clog2 (Nat.max h w) + 1 := rfl
    omega
  have key : ∀ (a k : Nat), ceilDiv a (2 ^ k) = ⌈(a : ℚ) * (1 / 2 : ℚ) ^ k⌉₊ := by
    intro a k
    rw [ceilDiv_eq_nat_ceil a (2 ^ k) Nat.one_le_two_pow]
    congr 1
    rw [div_pow, one_pow, mul_one_div]
    push_cast
    norm_num
  refine ⟨get_scale_of_valid hl, ?_, ?_, ?_⟩
  · rw [get_scale_of_valid (show (tcOf dest dzi w h ts ov).levels - 1 <
        (tcOf dest dzi w h ts ov).levels by omega)]
    rw [Nat.sub_self, pow_zero]
  · rw [get_dimensions_of_valid hl, key, key]
    rfl
  · rw [get_dimensions_of_valid (show (tcOf dest dzi w h ts ov).levels - 1 <
        (tcOf dest dzi w h ts ov).levels by omega)]
    rw [Nat.sub_self, pow_zero]
    unfold ceilDiv
    rw [Nat.add_sub_cancel, Nat.div_one, Nat.add_sub_cancel, Nat.div_one]
    rfl

/-- Claim C4, witness: for a 5 x 3 source (4 levels), level 0 has scale 1/8
and dimensions given by the rational ceilings of 5/8 and 3/8. -/
theorem scale_dimensions_spec_witness :
    0 < (tcOf "s_files" "s.dzi" 5 3 1 0).levels ∧
    get_scale (tcOf "s_files" "s.dzi" 5 3 1 0) 0 =
      Except.ok ((1 / 2 : ℚ) ^ 3) ∧
    get_dimensions (tcOf "s_files" "s.dzi" 5 3 1 0) 0 =
      Except.ok (⌈((5 : Nat) : ℚ) * (1 / 2 : ℚ) ^ 3⌉₊,
        ⌈((3 : Nat) : ℚ) * (1 / 2 : ℚ) ^ 3⌉₊) :=
  ⟨by decide,
    (scale_dimensions_spec "s_files" "s.dzi" 5 3 1 0 0 (by decide)).1,
    (scale_dimensions_spec "s_files" "s.dzi" 5 3 1 0 0 (by decide)).2.2.1⟩

/-! Trace lemmas for claims C8 and C9. -/

lemma saves_append (a b : List Event) : saves (a ++ b) = saves a ++ saves b :=
  List.filterMap_append a b save_of

lemma descriptor_count_append (a b : List Event) :
    descriptor_count (a ++ b) = descriptor_count a + descriptor_count b :=
  List.countP_append is_descriptor a b

lemma save_tiles_spec (tc : TileCreator) (oracle : Oracle) (level : Nat)
    (hl : level < tc.levels) :
    ∀ ps : List (Nat × Nat),
      descriptor_count (save_tiles tc oracle level ps).1 = 0 ∧
      ((save_tiles tc oracle level ps).2 = none →
        saves (save_tiles tc oracle level ps).1 =
          ps.map (fun q => (level, q.1, q.2)) ∧
        ∀ q ∈ ps, oracle level q.1 q.2 = none) ∧
      (∀ e, (save_tiles tc oracle level ps).2 = some e →
        ∃ pre q post, ps = pre ++ q :: post ∧
          saves (save_tiles tc oracle level ps).1 =
            (pre ++ [q]).map (fun q2 => (level, q2.1, q2.2)) ∧
          (∀ q2 ∈ pre, oracle level q2.1 q2.2 = none) ∧
          oracle level q.1 q.2 = some e) := by
  intro ps
  induction ps with
  | nil =>
    refine ⟨rfl, fun _ => ⟨rfl, by simp⟩, fun e he => ?_⟩
    exact absurd he (by simp [save_tiles])
  | cons hd tl ih =>
    obtain ⟨c, r⟩ := hd
    obtain ⟨b, hb⟩ := get_tile_bounds_of_valid c r hl
    have hstep : save_tiles tc oracle level ((c, r) :: tl) =
        match oracle level c r with
        | some e => ([Event.saveTile level c r], some e)
        | none =>
          let p := save_tiles tc oracle level tl
          (Event.saveTile level c r :: p.1, p.2) := by
      rw [save_tiles, hb]
    cases hora : oracle level c r with
    | some e =>
      rw [hstep, hora]
      refine ⟨rfl, fun hn => absurd hn (by simp), fun e2 he2 => ?_⟩
      refine ⟨[], (c, r), tl, rfl, rfl, by simp, ?_⟩
      simp only [Option.some.injEq] at he2
      rw [hora, he2]
    | none =>
      rw [hstep, hora]
      obtain ⟨ihd, ihn, ihs⟩ := ih
      refine ⟨ihd, fun hn => ?_, fun e2 he2 => ?_⟩
      · obtain ⟨hsv, hall⟩ := ihn hn
        refine ⟨?_, ?_⟩
        · show saves (Event.saveTile level c r :: (save_tiles tc oracle level tl).1) = _
          rw [show saves (Event.saveTile level c r ::
              (save_tiles tc oracle level tl).1) =
            (level, c, r) :: saves (save_tiles tc oracle level tl).1 from rfl]
          rw [hsv]
          rfl
        · intro q hq
          rcases List.mem_cons.mp hq with h1 | h2
          · rw [h1]
            exact hora
          · exact hall q h2
      · obtain ⟨pre, q, post, htl, hsv, hpre, hq⟩ := ihs e2 he2
        refine ⟨(c, r) :: pre, q, post, by rw [htl]; rfl, ?_, ?_, hq⟩
        · show saves (Event.saveTile level c r ::
            (save_tiles tc oracle level tl).1) = _
          rw [show saves (Event.saveTile level c r ::
              (save_tiles tc oracle level tl).1) =
            (level, c, r) :: saves (save_tiles tc oracle level tl).1 from rfl]
          rw [hsv]
          rfl
        · intro q2 hq2
          rcases List.mem_cons.mp hq2 with h1 | h2
          · rw [h1]
            exact hora
          · exact hpre q2 h2

lemma create_level_spec (tc : TileCreator) (oracle : Oracle) (level : Nat)
    (hl : level < tc.levels) :
    descriptor_count (create_level tc oracle level).1 = 0 ∧
    ((create_level tc oracle level).2 = none →
      saves (create_level tc oracle level).1 = planned_over tc [level] ∧
      ∀ t ∈ planned_over tc [level], oracle t.1 t.2.1 t.2.2 = none) ∧
    (∀ e, (create_level tc oracle level).2 = some e →
      ∃ pre q, saves (create_level tc oracle level).1 = pre ++ [q] ∧
        (∃ rest2, (pre ++ [q]) ++ rest2 = planned_over tc [level]) ∧
        (∀ q2 ∈ pre, oracle q2.1 q2.2.1 q2.2.2 = none) ∧
        oracle q.1 q.2.1 q.2.2 = some e) := by
  have hgi := get_level_image_of_valid hl
  obtain ⟨cr, hgc⟩ : ∃ cr, get_tile_count tc level = Except.ok cr :=
    ⟨_, get_tile_count_of_valid hl⟩
  obtain ⟨c, r⟩ := cr
  have hcl : create_level tc oracle level =
      (Event.mkdir level :: (save_tiles tc oracle level (tiles_list c r)).1,
       (save_tiles tc oracle level (tiles_list c r)).2) := by
    unfold create_level
    rw [hgi, hgc]
  have hplan : planned_over tc [level] =
      (tiles_list c r).map (fun p => (level, p.1, p.2)) := by
    unfold planned_over
    rw [List.flatMap_cons, List.flatMap_nil, List.append_nil, hgc]
  obtain ⟨hd, hn, hs⟩ := save_tiles_spec tc oracle level hl (tiles_list c r)
  have hsaves_cons : saves (Event.mkdir level ::
      (save_tiles tc oracle level (tiles_list c r)).1) =
    saves ((save_tiles tc oracle level (tiles_list c r)).1) := rfl
  have hdc_cons : descriptor_count (Event.mkdir level ::
      (save_tiles tc oracle level (tiles_list c r)).1) =
    descriptor_count ((save_tiles tc oracle level (tiles_list c r)).1) := by
    unfold descriptor_count
    rw [List.countP_cons]
    simp [is_descriptor]
  rw [hcl, hplan]
  refine ⟨?_, ?_, ?_⟩
  · rw [show (Event.mkdir level ::
        (save_tiles tc oracle level (tiles_list c r)).1,
        (save_tiles tc oracle level (tiles_list c r)).2).1 =
      Event.mkdir level ::
        (save_tiles tc oracle level (tiles_list c r)).1 from rfl]
    rw [hdc_cons]
    exact hd
  · intro h2
    obtain ⟨hsv, hall⟩ := hn h2
    constructor
    · rw [show (Event.mkdir level ::
          (save_tiles tc oracle level (tiles_list c r)).1,
          (save_tiles tc oracle level (tiles_list c r)).2).1 =
        Event.mkdir level ::
          (save_tiles tc oracle level (tiles_list c r)).1 from rfl]
      rw [hsaves_cons, hsv]
    · intro t ht
      obtain ⟨p, hp, hpt⟩ := List.mem_map.mp ht
      rw [← hpt]
      exact hall p hp
  · intro e he
    obtain ⟨pre, q, post, hps, hsv, hpre, hq⟩ := hs e he
    refine ⟨pre.map (fun q2 => (level, q2.1, q2.2)), (level, q.1, q.2),
      ?_, ?_, ?_, hq⟩
    · rw [show (Event.mkdir level ::
          (save_tiles tc oracle level (tiles_list c r)).1,
          (save_tiles tc oracle level (tiles_list c r)).2).1 =
        Event.mkdir level ::
          (save_tiles tc oracle level (tiles_list c r)).1 from rfl]
      rw [hsaves_cons, hsv, List.map_append]
      rfl
    · refine ⟨post.map (fun q2 => (level, q2.1, q2.2)), ?_⟩
      rw [hps, List.map_append]
      simp [List.append_assoc]
    · intro q2 hq2
      obtain ⟨p, hp, hpt⟩ := List.mem_map.mp hq2
      rw [← hpt]
      exact hpre p hp

lemma run_levels_spec (tc : TileCreator) (oracle : Oracle) :
    ∀ ls : List Nat, (∀ l ∈ ls, l < tc.levels) →
      descriptor_count (run_levels tc oracle ls).1 = 0 ∧
      ((run_levels tc oracle ls).2 = none →
        saves (run_levels tc oracle ls).1 = planned_over tc ls ∧
        ∀ t ∈ planned_over tc ls, oracle t.1 t.2.1 t.2.2 = none) ∧
      (∀ e, (run_levels tc oracle ls).2 = some e →
        ∃ pre q, saves (run_levels tc oracle ls).1 = pre ++ [q] ∧
          (∃ rest2, (pre ++ [q]) ++ rest2 = planned_over tc ls) ∧
          (∀ q2 ∈ pre, oracle q2.1 q2.2.1 q2.2.2 = none) ∧
          oracle q.1 q.2.1 q.2.2 = some e) := by
  intro ls
  induction ls with
  | nil =>
    intro _
    exact ⟨rfl, fun _ => ⟨rfl, by simp [planned_over]⟩,
      fun e he => absurd he (by simp [run_levels])⟩
  | cons l rest ih =>
    intro hval
    have hl : l < tc.levels := hval l (List.mem_cons_self l rest)
    have hrest : ∀ l2 ∈ rest, l2 < tc.levels :=
      fun l2 h2 => hval l2 (List.mem_cons_of_mem l h2)
    obtain ⟨cld, cln, cls⟩ := create_level_spec tc oracle l hl
    obtain ⟨rad, ran, ras⟩ := ih hrest
    have hplan : planned_over tc (l :: rest) =
        planned_over tc [l] ++ planned_over tc rest := by
      unfold planned_over
      rw [List.flatMap_cons, List.flatMap_cons, List.flatMap_nil,
        List.append_nil]
    have hstep : run_levels tc oracle (l :: rest) =
        match (create_level tc oracle l).2 with
        | some e => ((create_level tc oracle l).1, some e)
        | none => ((create_level tc oracle l).1 ++ (run_levels tc oracle rest).1,
            (run_levels tc oracle rest).2) := rfl
    rw [hplan]
    cases hcl2 : (create_level tc oracle l).2 with
    | some e =>
      have hre : run_levels tc oracle (l :: rest) =
          ((create_level tc oracle l).1, some e) := by
        rw [hstep, hcl2]
      rw [hre]
      refine ⟨cld, fun hn => absurd hn (by simp), fun e2 he2 => ?_⟩
      have he2e : e = e2 := by
        simpa using he2
      subst he2e
      obtain ⟨pre, q, hsv, ⟨rest2, hpre2⟩, hprew, hq⟩ := cls e hcl2
      refine ⟨pre, q, hsv, ⟨rest2 ++ planned_over tc rest, ?_⟩, hprew, hq⟩
      rw [← List.append_assoc, hpre2]
    | none =>
      have hre : run_levels tc oracle (l :: rest) =
          ((create_level tc oracle l).1 ++ (run_levels tc oracle rest).1,
           (run_levels tc oracle rest).2) := by
        rw [hstep, hcl2]
      rw [hre]
      obtain ⟨hsv1, hall1⟩ := cln hcl2
      refine ⟨?_, ?_, ?_⟩
      · rw [show ((create_level tc oracle l).1 ++ (run_levels tc oracle rest).1,
            (run_levels tc oracle rest).2).1 =
          (create_level tc oracle l).1 ++ (run_levels tc oracle rest).1 from rfl]
        rw [descriptor_count_append, cld, rad]
      · intro hn
        obtain ⟨hsv2, hall2⟩ := ran hn
        constructor
        · rw [show ((create_level tc oracle l).1 ++ (run_levels tc oracle rest).1,
              (run_levels tc oracle rest).2).1 =
            (create_level tc oracle l).1 ++ (run_levels tc oracle rest).1 from rfl]
          rw [saves_append, hsv1, hsv2]
        · intro t ht
          rcases List.mem_append.mp ht with h1 | h2
          · exact hall1 t h1
          · exact hall2 t h2
      · intro e he
        obtain ⟨pre, q, hsv, ⟨rest2, hpre2⟩, hprew, hq⟩ := ras e he
        refine ⟨planned_over tc [l] ++ pre, q, ?_, ⟨rest2, ?_⟩, ?_, hq⟩
        · rw [show ((create_level tc oracle l).1 ++ (run_levels tc oracle rest).1,
              (run_levels tc oracle rest).2).1 =
            (create_level tc oracle l).1 ++ (run_levels tc oracle rest).1 from rfl]
          rw [saves_append, hsv1, hsv, List.append_assoc]
        · have hassoc : ((planned_over tc [l] ++ pre) ++ [q]) ++ rest2 =
              planned_over tc [l] ++ ((pre ++ [q]) ++ rest2) := by
            simp [List.append_assoc]
          rw [hassoc, hpre2]
        · intro q2 hq2
          rcases List.mem_append.mp hq2 with h1 | h2
          · exact hall1 q2 h1
          · exact hprew q2 h2

lemma descriptor_xml_eq_spec (ts ov w h : Nat) :
    descriptor_xml ts ov w h = spec_descriptor ts ov w h := by
  unfold descriptor_xml spec_descriptor
  simp only [String.intercalate, String.intercalate.go, String.append_assoc]
  rfl

/-! Claim C8. -/

/-- Claim C8: create_tiles processes levels in ascending order (the tile save
attempts of every run form a prefix of the planned ascending tile sequence);
on success every planned tile was attempted and the descriptor is written
exactly once, as the last event; on failure the descriptor is not written at
all, the last attempted tile is the failing one, and every earlier attempt
succeeded (remaining tiles and levels are not attempted). -/
theorem create_tiles_sequential (tc : TileCreator) (oracle : Oracle) :
    (∃ rest, saves (create_tiles_run tc oracle).1 ++ rest = planned_tiles tc) ∧
    ((create_tiles_run tc oracle).2 = none →
      saves (create_tiles_run tc oracle).1 = planned_tiles tc ∧
      descriptor_count (create_tiles_run tc oracle).1 = 1 ∧
      ∃ q, (create_tiles_run tc oracle).1 =
          q ++ [Event.writeDescriptor tc.dzi_file_path
            (descriptor_xml tc.tile_size tc.tile_overlap tc.width tc.height)] ∧
        descriptor_count q = 0) ∧
    (∀ e, (create_tiles_run tc oracle).2 = some e →
      descriptor_count (create_tiles_run tc oracle).1 = 0 ∧
      ∃ pre q, saves (create_tiles_run tc oracle).1 = pre ++ [q] ∧
        oracle q.1 q.2.1 q.2.2 = some e ∧
        ∀ q2 ∈ pre, oracle q2.1 q2.2.1 q2.2.2 = none) := by
  have hval : ∀ l ∈ List.range tc.levels, l < tc.levels :=
    fun l hl => List.mem_range.mp hl
  obtain ⟨rad, ran, ras⟩ := run_levels_spec tc oracle (List.range tc.levels) hval
  have hstep : create_tiles_run tc oracle =
      match (run_levels tc oracle (List.range tc.levels)).2 with
      | some e => ((run_levels tc oracle (List.range tc.levels)).1, some e)
      | none => ((run_levels tc oracle (List.range tc.levels)).1 ++
          [Event.writeDescriptor tc.dzi_file_path
            (descriptor_xml tc.tile_size tc.tile_overlap tc.width tc.height)],
          none) := rfl
  cases hrl : (run_levels tc oracle (List.range tc.levels)).2 with
  | some e =>
    have hre : create_tiles_run tc oracle =
        ((run_levels tc oracle (List.range tc.levels)).1, some e) := by
      rw [hstep, hrl]
    rw [hre]
    obtain ⟨pre, q, hsv, hprefix, hprew, hq⟩ := ras e hrl
    refine ⟨?_, fun hn => absurd hn (by simp), fun e2 he2 => ?_⟩
    · obtain ⟨rest2, h2⟩ := hprefix
      refine ⟨rest2, ?_⟩
      rw [show ((run_levels tc oracle (List.range tc.levels)).1,
          some e).1 = (run_levels tc oracle (List.range tc.levels)).1 from rfl]
      rw [hsv]
      exact h2
    · have he2e : e = e2 := by simpa using he2
      subst he2e
      exact ⟨rad, pre, q, hsv, hq, hprew⟩
  | none =>
    have hre : create_tiles_run tc oracle =
        ((run_levels tc oracle (List.range tc.levels)).1 ++
          [Event.writeDescriptor tc.dzi_file_path
            (descriptor_xml tc.tile_size tc.tile_overlap tc.width tc.height)],
          none) := by
      rw [hstep, hrl]
    rw [hre]
    obtain ⟨hsv, _⟩ := ran hrl
    have hsaves2 : saves ((run_levels tc oracle (List.range tc.levels)).1 ++
        [Event.writeDescriptor tc.dzi_file_path
          (descriptor_xml tc.tile_size tc.tile_overlap tc.width tc.height)]) =
        saves (run_levels tc oracle (List.range tc.levels)).1 := by
      rw [saves_append]
      simp [saves, save_of]
    refine ⟨⟨[], ?_⟩, fun _ => ⟨?_, ?_, ?_⟩, fun e2 he2 => absurd he2 (by simp)⟩
    · rw [show ((run_levels tc oracle (List.range tc.levels)).1 ++
          [Event.writeDescriptor tc.dzi_file_path
            (descriptor_xml tc.tile_size tc.tile_overlap tc.width tc.height)],
          (none : Option TilingError)).1 =
        (run_levels tc oracle (List.range tc.levels)).1 ++
          [Event.writeDescriptor tc.dzi_file_path
            (descriptor_xml tc.tile_size tc.tile_overlap tc.width tc.height)]
        from rfl]
      rw [hsaves2, List.append_nil, hsv]
      rfl
    · rw [show ((run_levels tc oracle (List.range tc.levels)).1 ++
          [Event.writeDescriptor tc.dzi_file_path
            (descriptor_xml tc.tile_size tc.tile_overlap tc.width tc.height)],
          (none : Option TilingError)).1 =
        (run_levels tc oracle (List.range tc.levels)).1 ++
          [Event.writeDescriptor tc.dzi_file_path
            (descriptor_xml tc.tile_size tc.tile_overlap tc.width tc.height)]
        from rfl]
      rw [hsaves2, hsv]
      rfl
    · rw [show ((run_levels tc oracle (List.range tc.levels)).1 ++
          [Event.writeDescriptor tc.dzi_file_path
            (descriptor_xml tc.tile_size tc.tile_overlap tc.width tc.height)],
          (none : Option TilingError)).1 =
        (run_levels tc oracle (List.range tc.levels)).1 ++
          [Event.writeDescriptor tc.dzi_file_path
            (descriptor_xml tc.tile_size tc.tile_overlap tc.width tc.height)]
        from rfl]
      rw [descriptor_count_append, rad]
      rfl
    · exact ⟨(run_levels tc oracle (List.range tc.levels)).1, rfl, rad⟩

/-- Claim C8, witness: for a 1 x 1 source with an always-succeeding save,
the run saves exactly the planned tiles and writes the descriptor once, as
the last event. -/
theorem create_tiles_sequential_witness :
    saves (create_tiles_run (tcOf "w_files" "w.dzi" 1 1 1 0)
        (fun _ _ _ => none)).1 =
      planned_tiles (tcOf "w_files" "w.dzi" 1 1 1 0) ∧
    descriptor_count (create_tiles_run (tcOf "w_files" "w.dzi" 1 1 1 0)
        (fun _ _ _ => none)).1 = 1 ∧
    ∃ q, (create_tiles_run (tcOf "w_files" "w.dzi" 1 1 1 0)
          (fun _ _ _ => none)).1 =
        q ++ [Event.writeDescriptor "w.dzi" (descriptor_xml 1 0 1 1)] ∧
      descriptor_count q = 0 :=
  (create_tiles_sequential (tcOf "w_files" "w.dzi" 1 1 1 0)
    (fun _ _ _ => none)).2.1 rfl

/-! Claim C9. -/

/-- Claim C9: the descriptor text of the code is byte-exact the XML template
of the specification with TileSize the configured tile size, Overlap the
configured overlap, Format jpg, and Size the full-resolution source
dimensions; on success the run writes it to the configured descriptor path
as its only descriptor write. -/
theorem descriptor_written (tc : TileCreator) (oracle : Oracle) :
    (∀ ts ov w h, descriptor_xml ts ov w h = spec_descriptor ts ov w h) ∧
    ((create_tiles_run tc oracle).2 = none →
      ∃ q, (create_tiles_run tc oracle).1 =
          q ++ [Event.writeDescriptor tc.dzi_file_path
            (spec_descriptor tc.tile_size tc.tile_overlap tc.width tc.height)] ∧
        descriptor_count q = 0) := by
  refine ⟨descriptor_xml_eq_spec, fun hn => ?_⟩
  have hval : ∀ l ∈ List.range tc.levels, l < tc.levels :=
    fun l hl => List.mem_range.mp hl
  obtain ⟨rad, _, _⟩ := run_levels_spec tc oracle (List.range tc.levels) hval
  have hstep : create_tiles_run tc oracle =
      match (run_levels tc oracle (List.range tc.levels)).2 with
      | some e => ((run_levels tc oracle (List.range tc.levels)).1, some e)
      | none => ((run_levels tc oracle (List.range tc.levels)).1 ++
          [Event.writeDescriptor tc.dzi_file_path
            (descriptor_xml tc.tile_size tc.tile_overlap tc.width tc.height)],
          none) := rfl
  cases hrl : (run_levels tc oracle (List.range tc.levels)).2 with
  | some e =>
    rw [hstep, hrl] at hn
    exact absurd hn (by simp)
  | none =>
    have hre : create_tiles_run tc oracle =
        ((run_levels tc oracle (List.range tc.levels)).1 ++
          [Event.writeDescriptor tc.dzi_file_path
            (descriptor_xml tc.tile_size tc.tile_overlap tc.width tc.height)],
          none) := by
      rw [hstep, hrl]
    rw [hre, descriptor_xml_eq_spec]
    exact ⟨(run_levels tc oracle (List.range tc.levels)).1, rfl, rad⟩

/-- Claim C9, witness: for a 1 x 1 source with tile_size 254 and overlap 1
and an always-succeeding save, the final event writes the specification
template, instantiated with 254, 1, 1, 1, to the configured path. -/
theorem descriptor_written_witness :
    ∃ q, (create_tiles_run (tcOf "d_files" "d.dzi" 1 1 254 1)
          (fun _ _ _ => none)).1 =
        q ++ [Event.writeDescriptor "d.dzi" (spec_descriptor 254 1 1 1)] ∧
      descriptor_count q = 0 :=
  (descriptor_written (tcOf "d_files" "d.dzi" 1 1 254 1)
    (fun _ _ _ => none)).2 rfl

end DZI
